import Mathlib

/-!
Verification development for the AgentStageFramework repository.

The definitions below are shallow embeddings of the Go source:
`internal/theta_client/client.go` (retrying transport `sendRequest`,
`GenerateWithLLM` routing, `parseSSEorJSONCompletion` response decoding,
rate limiter, `SetRetry` and `SetRateLimit` setters) and
`game/orchestrator.go` (`extractAdvisorOpinion` and its helpers,
`getAdvisorAdviceStream` fallback cascade).

Strings are modelled as Lean `String` and processed over `List Char`.
Whitespace predicates model the ASCII subset of Go's `unicode.IsSpace`;
all inputs appearing in claims are ASCII.  The JSON parser models
`encoding/json.Unmarshal` into `map[string]interface` values: a single
JSON value, surrounding whitespace allowed, trailing data rejected,
top-level non-objects rejected when the target is a map.
-/

namespace AgentStage

abbrev Chars := List Char

/-- Left brace character, written via its code point. -/
def lbrace : Char := Char.ofNat 123
/-- Right brace character, written via its code point. -/
def rbrace : Char := Char.ofNat 125
/-- Double quote character. -/
def dquote : Char := Char.ofNat 34
/-- Backslash character. -/
def bslash : Char := Char.ofNat 92
/-- Backtick character. -/
def btick : Char := Char.ofNat 96
/-- Apostrophe character. -/
def apos : Char := Char.ofNat 39

/-- ASCII whitespace, modelling Go strings.TrimSpace / strings.Fields
on the ASCII range (space, tab, newline, carriage return, vertical tab,
form feed). -/
def isWsChar (c : Char) : Bool :=
  c == ' ' || c == '\t' || c == '\n' || c == '\r' || c == Char.ofNat 11 || c == Char.ofNat 12

/-- Go strings.TrimSpace (ASCII model). -/
def trimSpace (s : String) : String :=
  ⟨((s.data.dropWhile isWsChar).reverse.dropWhile isWsChar).reverse⟩

/-- Is `p` a prefix of `s` (character lists)? -/
def isPrefixOfList : Chars → Chars → Bool
  | [], _ => true
  | _ :: _, [] => false
  | p :: ps, c :: cs => p == c && isPrefixOfList ps cs

/-- Does `s` contain `p` as a substring (character lists)? -/
def containsAux : Chars → Chars → Bool
  | [], p => p.isEmpty
  | c :: rest, p => isPrefixOfList p (c :: rest) || containsAux rest p

/-- Go strings.Contains. -/
def containsSub (s pat : String) : Bool := containsAux s.data pat.data

/-- Go strings.HasPrefix. -/
def hasPrefixStr (s p : String) : Bool := isPrefixOfList p.data s.data

/-- Go strings.TrimPrefix. -/
def dropPrefixStr (s p : String) : String :=
  if hasPrefixStr s p then ⟨s.data.drop p.data.length⟩ else s

/-- Split on a (nonempty) separator sequence, fuel-driven.
Models Go strings.Split. -/
def splitSepAux (sep : Chars) : Nat → Chars → Chars → List Chars
  | 0, acc, rest => [acc.reverse ++ rest]
  | _ + 1, acc, [] => [acc.reverse]
  | f + 1, acc, c :: rest =>
      if isPrefixOfList sep (c :: rest) then
        acc.reverse :: splitSepAux sep f [] ((c :: rest).drop sep.length)
      else
        splitSepAux sep f (c :: acc) rest

/-- Go strings.Split (for nonempty separators, the only use in the source). -/
def splitOnStr (s sep : String) : List String :=
  (splitSepAux sep.data (s.data.length + 1) [] s.data).map (fun l => (⟨l⟩ : String))

/-- Split at every whitespace character (empty pieces kept). -/
def splitWsAux : Nat → Chars → Chars → List Chars
  | 0, acc, rest => [acc.reverse ++ rest]
  | _ + 1, acc, [] => [acc.reverse]
  | f + 1, acc, c :: rest =>
      if isWsChar c then acc.reverse :: splitWsAux f [] rest
      else splitWsAux f (c :: acc) rest

/-- Go strings.Fields: maximal runs of non-whitespace. -/
def fieldsStr (s : String) : List String :=
  ((splitWsAux (s.data.length + 1) [] s.data).filter (fun l => !l.isEmpty)).map
    (fun l => (⟨l⟩ : String))

/-- Go strings.Trim with a one-character cutset (both ends). -/
def trimCharEnds (s : String) (c : Char) : String :=
  ⟨((s.data.dropWhile (· == c)).reverse.dropWhile (· == c)).reverse⟩

/-- ASCII lower-casing, modelling Go strings.ToLower on the inputs used. -/
def toLowerStr (s : String) : String := ⟨s.data.map Char.toLower⟩

/-- The tail after the first occurrence of a character, if any. -/
def afterCharAux (t : Char) : Chars → Option Chars
  | [] => none
  | c :: rest => if c == t then some rest else afterCharAux t rest

/-- Go helper afterColon in orchestrator.go: the trimmed text after the
first colon, or the whole trimmed string when there is no colon. -/
def afterColon (s : String) : String :=
  match afterCharAux ':' s.data with
  | some r => trimSpace ⟨r⟩
  | none => trimSpace s

/-- Split at the first occurrence of character `t`:
returns the part before and the part after (excluding `t`). -/
def splitAtCharFirst (t : Char) : Chars → Option (Chars × Chars)
  | [] => none
  | c :: rest =>
      if c == t then some ([], rest)
      else match splitAtCharFirst t rest with
        | some (b, a) => some (c :: b, a)
        | none => none

/-! ## JSON values and parser

Models Go `encoding/json.Unmarshal` into `map[string]interface` targets
closely enough for the claims: full value grammar, string escapes,
rejection of control characters inside strings, rejection of trailing
data and of top-level non-objects for map targets.  Numbers are kept as
their lexemes (the source never inspects numeric values).  Duplicate
object keys keep the last occurrence, as a Go map build does. -/

inductive JVal where
  | jnull : JVal
  | jbool (b : Bool) : JVal
  | jnum (lexeme : String) : JVal
  | jstr (s : String) : JVal
  | jarr (elems : List JVal) : JVal
  | jobj (fields : List (String × JVal)) : JVal
deriving Repr, BEq

/-- JSON insignificant whitespace (space, tab, newline, carriage return). -/
def isJsonWs (c : Char) : Bool :=
  c == ' ' || c == '\t' || c == '\n' || c == '\r'

/-- Skip JSON whitespace. -/
def skipWsJ (cs : Chars) : Chars := cs.dropWhile isJsonWs

/-- Hexadecimal digit value. -/
def hexVal (c : Char) : Option Nat :=
  if c.isDigit then some (c.toNat - 48)
  else if 97 ≤ c.toNat && c.toNat ≤ 102 then some (c.toNat - 87)
  else if 65 ≤ c.toNat && c.toNat ≤ 70 then some (c.toNat - 55)
  else none

/-- Decode one string escape after the backslash.  Returns the decoded
character and the remaining input. -/
def decodeEscape : Chars → Option (Char × Chars)
  | [] => none
  | e :: rest =>
      if e == dquote then some (dquote, rest)
      else if e == bslash then some (bslash, rest)
      else if e == '/' then some ('/', rest)
      else if e == 'b' then some (Char.ofNat 8, rest)
      else if e == 'f' then some (Char.ofNat 12, rest)
      else if e == 'n' then some ('\n', rest)
      else if e == 'r' then some ('\r', rest)
      else if e == 't' then some ('\t', rest)
      else if e == 'u' then
        match rest with
        | a :: b :: c :: d :: rest2 =>
            match hexVal a, hexVal b, hexVal c, hexVal d with
            | some x, some y, some z, some w =>
                some (Char.ofNat (4096 * x + 256 * y + 16 * z + w), rest2)
            | _, _, _, _ => none
        | _ => none
      else none

/-- Parse the body of a JSON string (after the opening quote), returning
the decoded characters and the input after the closing quote. -/
def parseStrBody : Nat → Chars → Option (Chars × Chars)
  | 0, _ => none
  | _ + 1, [] => none
  | f + 1, c :: rest =>
      if c == dquote then some ([], rest)
      else if c == bslash then
        match decodeEscape rest with
        | some (ch, r) =>
            match parseStrBody f r with
            | some (s, r2) => some (ch :: s, r2)
            | none => none
        | none => none
      else if c.toNat < 32 then none
      else
        match parseStrBody f rest with
        | some (s, r2) => some (c :: s, r2)
        | none => none

/-- Parse a JSON number lexeme (Go grammar: optional minus, integer part
without leading zeros, optional fraction, optional exponent). -/
def parseNumLex (cs : Chars) : Option (Chars × Chars) :=
  let signSplit : Chars × Chars :=
    match cs with
    | c :: rest => if c == '-' then ([c], rest) else ([], cs)
    | [] => ([], cs)
  let sgn := signSplit.1
  match signSplit.2 with
  | [] => none
  | c :: rest =>
      let intPart : Option (Chars × Chars) :=
        if c == '0' then some ([c], rest)
        else if c.isDigit then
          let ds := rest.takeWhile Char.isDigit
          some (c :: ds, rest.drop ds.length)
        else none
      match intPart with
      | none => none
      | some (ip, r1) =>
          let fracPart : Option (Chars × Chars) :=
            match r1 with
            | d :: r2 =>
                if d == '.' then
                  let ds := r2.takeWhile Char.isDigit
                  if ds.isEmpty then none else some (d :: ds, r2.drop ds.length)
                else some ([], r1)
            | [] => some ([], r1)
          match fracPart with
          | none => none
          | some (fp, r2) =>
              let expPart : Option (Chars × Chars) :=
                match r2 with
                | e :: r3 =>
                    if e == 'e' || e == 'E' then
                      let expHead : Chars × Chars :=
                        match r3 with
                        | s :: r4 =>
                            if s == '+' || s == '-' then ([e, s], r4) else ([e], r3)
                        | [] => ([e], r3)
                      let ds := expHead.2.takeWhile Char.isDigit
                      if ds.isEmpty then none
                      else some (expHead.1 ++ ds, expHead.2.drop ds.length)
                    else some ([], r2)
                | [] => some ([], r2)
              match expPart with
              | none => none
              | some (ep, r3) => some (sgn ++ ip ++ fp ++ ep, r3)

/-- Drop a literal keyword tail (used for true, false, null). -/
def dropLit : Chars → Chars → Option Chars
  | [], s => some s
  | p :: ps, c :: cs => if p == c then dropLit ps cs else none
  | _ :: _, [] => none

mutual

/-- Parse one JSON value at the head of the input (no leading whitespace).
Fuel-driven; every recursive call strictly consumes input, and twice the
input length is always enough fuel. -/
def parseVal : Nat → Chars → Option (JVal × Chars)
  | 0, _ => none
  | _ + 1, [] => none
  | f + 1, c :: rest =>
      if c == dquote then
        match parseStrBody (rest.length + 1) rest with
        | some (s, r) => some (.jstr ⟨s⟩, r)
        | none => none
      else if c == lbrace then parseObjBody f (skipWsJ rest) true []
      else if c == '[' then parseArrBody f (skipWsJ rest) true []
      else if c == 't' then
        match dropLit ['r', 'u', 'e'] rest with
        | some r => some (.jbool true, r)
        | none => none
      else if c == 'f' then
        match dropLit ['a', 'l', 's', 'e'] rest with
        | some r => some (.jbool false, r)
        | none => none
      else if c == 'n' then
        match dropLit ['u', 'l', 'l'] rest with
        | some r => some (.jnull, r)
        | none => none
      else if c == '-' || c.isDigit then
        match parseNumLex (c :: rest) with
        | some (lx, r) => some (.jnum ⟨lx⟩, r)
        | none => none
      else none

/-- Parse object members after the opening brace (whitespace skipped).
`first` is true before any member has been read. -/
def parseObjBody : Nat → Chars → Bool → List (String × JVal) →
    Option (JVal × Chars)
  | 0, _, _, _ => none
  | _ + 1, [], _, _ => none
  | f + 1, c :: rest, first, acc =>
      if first && c == rbrace then some (.jobj acc.reverse, rest)
      else if c == dquote then
        match parseStrBody (rest.length + 1) rest with
        | none => none
        | some (k, r1) =>
            match skipWsJ r1 with
            | colon :: r2 =>
                if colon == ':' then
                  match parseVal f (skipWsJ r2) with
                  | none => none
                  | some (v, r3) =>
                      match skipWsJ r3 with
                      | d :: r4 =>
                          if d == ',' then
                            parseObjBody f (skipWsJ r4) false ((⟨k⟩, v) :: acc)
                          else if d == rbrace then
                            some (.jobj ((⟨k⟩, v) :: acc).reverse, r4)
                          else none
                      | [] => none
                else none
            | [] => none
      else none

/-- Parse array elements after the opening bracket (whitespace skipped). -/
def parseArrBody : Nat → Chars → Bool → List JVal → Option (JVal × Chars)
  | 0, _, _, _ => none
  | _ + 1, [], _, _ => none
  | f + 1, c :: rest, first, acc =>
      if first && c == ']' then some (.jarr acc.reverse, rest)
      else
        match parseVal f (c :: rest) with
        | none => none
        | some (v, r1) =>
            match skipWsJ r1 with
            | d :: r2 =>
                if d == ',' then parseArrBody f (skipWsJ r2) false (v :: acc)
                else if d == ']' then some (.jarr (v :: acc).reverse, r2)
                else none
            | [] => none

end

/-- Parse a complete JSON document: one value with surrounding whitespace,
no trailing data.  Models the acceptance behaviour of json.Unmarshal. -/
def jparse (s : String) : Option JVal :=
  match parseVal (2 * s.data.length + 2) (skipWsJ s.data) with
  | some (v, rest) => if (skipWsJ rest).isEmpty then some v else none
  | none => none

/-- Models json.Unmarshal into a map target: succeeds only when the
document is a JSON object. -/
def goUnmarshalMap (s : String) : Option (List (String × JVal)) :=
  match jparse s with
  | some (.jobj fs) => some fs
  | _ => none

/-- Lookup in an object, last occurrence winning (Go map build order). -/
def jlookup (fs : List (String × JVal)) (k : String) : Option JVal :=
  match fs.reverse.find? (fun p => p.1 == k) with
  | some p => some p.2
  | none => none

/-! ## Response decoder: parseSSEorJSONCompletion (client.go) -/

/-- Text contributed by one decoded SSE chunk object: for each element of
its choices array, append delta.content (if a string) then text (if a
string) — the order used in the SSE branch of the source. -/
def chunkTextSSE (fs : List (String × JVal)) : String :=
  match jlookup fs "choices" with
  | some (.jarr chs) =>
      chs.foldl (fun acc ch =>
        match ch with
        | .jobj m =>
            let acc1 :=
              match jlookup m "delta" with
              | some (.jobj d) =>
                  match jlookup d "content" with
                  | some (.jstr c) => acc ++ c
                  | _ => acc
              | _ => acc
            match jlookup m "text" with
            | some (.jstr t) => acc1 ++ t
            | _ => acc1
        | _ => acc) ""
  | _ => ""

/-- Text of a plain JSON completion object: for each element of choices,
append text then delta.content — the order used in the plain branch. -/
def choicesTextPlain (fs : List (String × JVal)) : String :=
  match jlookup fs "choices" with
  | some (.jarr chs) =>
      chs.foldl (fun acc ch =>
        match ch with
        | .jobj m =>
            let acc1 :=
              match jlookup m "text" with
              | some (.jstr t) => acc ++ t
              | _ => acc
            match jlookup m "delta" with
            | some (.jobj d) =>
                match jlookup d "content" with
                | some (.jstr c) => acc1 ++ c
                | _ => acc1
            | _ => acc1
        | _ => acc) ""
  | _ => ""

/-- The plain-JSON extraction of the decoder: some aggregated text when
the body unmarshals to an object whose choices yield nonempty text. -/
def jsonChoicesText (s : String) : Option String :=
  match goUnmarshalMap s with
  | some fs =>
      let t := choicesTextPlain fs
      if t == "" then none else some t
  | none => none

/-- One line of the SSE branch folded into the aggregate. -/
def sseLineStep (acc : String) (line0 : String) : String :=
  let line1 := trimSpace line0
  if line1 == "" || line1 == "[DONE]" then acc
  else if hasPrefixStr line1 "data:" then
    let line2 := trimSpace (dropPrefixStr line1 "data:")
    if line2 == "" then acc
    else
      match goUnmarshalMap line2 with
      | some fs => acc ++ chunkTextSSE fs
      | none => acc
  else acc

/-- Embedding of parseSSEorJSONCompletion from client.go: bodies that
contain a newline-data marker are decoded line by line as SSE chunks;
otherwise a plain JSON object with choices text is used; otherwise the
trimmed raw body is returned. -/
def parseSSEorJSONCompletion (s : String) : String :=
  if containsSub s "\ndata:" then
    (splitOnStr s "\n").foldl sseLineStep ""
  else
    match jsonChoicesText s with
    | some t => t
    | none => trimSpace s

/-! ## Structured-output extractor (orchestrator.go) -/

/-- Drop characters until the first occurrence of `t` (kept at the head). -/
def dropUntilChar (t : Char) : Chars → Chars
  | [] => []
  | c :: rest => if c == t then c :: rest else dropUntilChar t rest

/-- Candidate scan of the non-greedy regex used as jsonCandidateRE in the
source: each match runs from a left brace to the nearest following right
brace, and scanning resumes after that brace.  Nested braces are NOT
balanced — this mirrors the source regex exactly. -/
def candsAux : Nat → Chars → List Chars
  | 0, _ => []
  | f + 1, cs =>
      match dropUntilChar lbrace cs with
      | [] => []
      | _ :: rest =>
          match splitAtCharFirst rbrace rest with
          | none => []
          | some (inner, after) =>
              (lbrace :: inner ++ [rbrace]) :: candsAux f after

/-- All jsonCandidateRE matches in a string, in order. -/
def jsonCandidates (s : String) : List String :=
  (candsAux (s.data.length + 1) s.data).map (fun l => (⟨l⟩ : String))

/-- The advisor_opinion string of one candidate fragment, when the
fragment unmarshals to an object carrying that key as a string. -/
def candValue (frag : String) : Option String :=
  match goUnmarshalMap frag with
  | some fs =>
      match jlookup fs "advisor_opinion" with
      | some (.jstr v) => some v
      | _ => none
  | none => none

/-- The value of the last candidate that parses with the key — the
backwards loop over candidates in the source. -/
def findLastCandidateValue (s : String) : Option String :=
  (jsonCandidates s).reverse.findSome? candValue

/-- Case-insensitive character equality (the regex i flag). -/
def ciEq (a b : Char) : Bool := a.toLower == b.toLower

/-- Drop a case-insensitive literal prefix. -/
def ciPrefixDrop : Chars → Chars → Option Chars
  | [], s => some s
  | _ :: _, [] => none
  | p :: ps, c :: cs => if ciEq p c then ciPrefixDrop ps cs else none

/-- Whitespace class of Go regexp (backslash-s): tab, newline, form
feed, carriage return, space. -/
def isReWs (c : Char) : Bool :=
  c == ' ' || c == '\t' || c == '\n' || c == '\r' || c == Char.ofNat 12

/-- The quoted key literal of the fallback regex. -/
def keyPat : Chars := dquote :: "advisor_opinion".data ++ [dquote]

/-- Try the fallback key regex at one starting position: the quoted key
(case-insensitively), optional whitespace, a colon, optional whitespace,
then a quoted run of one or more non-quote characters (the capture). -/
def keyCaptureAt (cs : Chars) : Option String :=
  match ciPrefixDrop keyPat cs with
  | none => none
  | some r1 =>
      match r1.dropWhile isReWs with
      | c :: r3 =>
          if c == ':' then
            match r3.dropWhile isReWs with
            | q :: r5 =>
                if q == dquote then
                  match splitAtCharFirst dquote r5 with
                  | some (content, _) =>
                      if content.isEmpty then none else some ⟨content⟩
                  | none => none
                else none
            | [] => none
          else none
      | [] => none

/-- Scan all starting positions left to right for the fallback regex. -/
def keyCaptureScan : Nat → Chars → Option String
  | 0, _ => none
  | _ + 1, [] => none
  | f + 1, c :: rest =>
      match keyCaptureAt (c :: rest) with
      | some v => some v
      | none => keyCaptureScan f rest

/-- Embedding of the malformed-JSON fallback regex capture in
extractAdvisorOpinion. -/
def regexKeyCapture (s : String) : Option String :=
  keyCaptureScan (s.data.length + 1) s.data

/-- Sentence matches of the sanitizer regex: maximal runs without
sentence punctuation followed by one punctuation mark; an unterminated
tail is dropped. -/
def sentencesAux : Nat → Chars → Chars → List Chars
  | 0, _, _ => []
  | _ + 1, _, [] => []
  | f + 1, acc, c :: rest =>
      if c == '.' || c == '?' || c == '!' then
        (acc.reverse ++ [c]) :: sentencesAux f [] rest
      else sentencesAux f (c :: acc) rest

/-- All sentence matches in a string. -/
def sentenceSplit (s : String) : List String :=
  (sentencesAux (s.data.length + 1) [] s.data).map (fun l => (⟨l⟩ : String))

/-- Embedding of sanitizeOpinion: strip quotes and backticks, collapse
whitespace, cap at three sentences. -/
def sanitizeOpinion (s : String) : String :=
  let s1 := trimSpace s
  let s2 := trimCharEnds s1 btick
  let s3 := trimCharEnds s2 dquote
  let fs := fieldsStr s3
  if fs.isEmpty then ""
  else
    let out := String.intercalate " " fs
    let sents := sentenceSplit out
    if sents.isEmpty then out
    else trimSpace (String.intercalate " " (sents.take 3))

/-- The lowercase pattern i-am with a space, built without an apostrophe
literal for the matching i-m pattern below. -/
def iAmPat : String := "i am "

/-- The contraction pattern with an apostrophe character. -/
def imPat : String := ⟨['i', apos, 'm', ' ']⟩

/-- Embedding of looksMeta: meta-commentary paragraphs. -/
def looksMeta (s : String) : Bool :=
  let low := toLowerStr s
  hasPrefixStr low iAmPat || hasPrefixStr low imPat ||
    containsSub low "thinking" || containsSub low "reasoning" ||
    containsSub low "let me"

/-- Embedding of strategies 2 and 3 of extractAdvisorOpinion: a labeled
advisor-opinion line, else the first non-meta paragraph, else empty. -/
def strategiesLate (r : String) : String :=
  let lines := splitOnStr r "\n"
  match lines.find? (fun ln =>
      let low := toLowerStr ln
      containsSub low "advisor opinion" || containsSub low "final advisory") with
  | some ln => sanitizeOpinion (afterColon ln)
  | none =>
      let paras := splitOnStr r "\n\n"
      match paras.find? (fun p =>
          let p2 := trimSpace p
          !(p2 == "") && !(looksMeta p2)) with
      | some p => sanitizeOpinion (trimSpace p)
      | none => ""

/-- Embedding of extractAdvisorOpinion from orchestrator.go. -/
def extractAdvisorOpinion (raw0 : String) : String :=
  let raw := trimSpace raw0
  if raw == "" then ""
  else if containsSub raw "advisor_opinion" then
    match findLastCandidateValue raw with
    | some v => sanitizeOpinion v
    | none =>
        match regexKeyCapture raw with
        | some v => sanitizeOpinion v
        | none => strategiesLate raw
  else strategiesLate raw

/-- Embedding of looksMetaLike: a nonempty trimmed string containing any
bracket-like character. -/
def looksMetaLike (s0 : String) : Bool :=
  let s := trimSpace s0
  if s == "" then false
  else s.data.any (fun c =>
    c == lbrace || c == rbrace || c == '[' || c == ']' ||
    c == '<' || c == '>' || c == '(' || c == ')')

/-! ## Retrying transport: sendRequest (client.go)

One attempt of the loop is summarized by an oracle outcome: the HTTP
call fails at transport level, the body read fails, or a response
arrives with a status code, a body, and a flag telling whether decoding
the body into the target would succeed.  The embedding reproduces the
control flow of the loop exactly, including which terminal path
increments which metric counter and how many attempts are consumed. -/

/-- Outcome of one HTTP attempt, as seen by the sendRequest loop. -/
inductive Outcome where
  | transportErr : Outcome
  | readErr : Outcome
  | httpResp (status : Nat) (body : String) (decodeOk : Bool) : Outcome
deriving Repr

/-- How a logical sendRequest call terminated. -/
inductive TermKind where
  | okTerm : TermKind
  | transportTerm : TermKind
  | exhaustedTerm : TermKind
deriving Repr, DecidableEq, BEq

/-- Result of a logical sendRequest call: termination kind, number of
attempts performed, and the increments applied to the request-success
and request-failure counters. -/
structure SendResult where
  term : TermKind
  attemptsUsed : Nat
  reqInc : Nat
  failInc : Nat
deriving Repr, DecidableEq

/-- The attempt loop of sendRequest, with `r` attempts remaining out of
`attempts`.  A transport error on the final attempt returns inside the
loop and increments the failure counter; every other failing outcome
falls through to the next iteration (this is the actual control flow:
the early-terminal treatment of plain 4xx and decode errors described
in the comments does not happen), and a loop that runs out of attempts
returns the exhausted error without touching either counter. -/
def sendFrom (oracle : Nat → Outcome) (attempts : Nat) : Nat → SendResult
  | 0 => ⟨.exhaustedTerm, attempts, 0, 0⟩
  | r + 1 =>
      let i := attempts - (r + 1)
      match oracle i with
      | .transportErr =>
          if r == 0 then ⟨.transportTerm, i + 1, 0, 1⟩
          else sendFrom oracle attempts r
      | .readErr => sendFrom oracle attempts r
      | .httpResp status _ decodeOk =>
          if status ≥ 400 then sendFrom oracle attempts r
          else if decodeOk then ⟨.okTerm, i + 1, 1, 0⟩
          else sendFrom oracle attempts r

/-- Embedding of sendRequest: run the loop for the configured number of
attempts. -/
def sendRequest (oracle : Nat → Outcome) (attempts : Nat) : SendResult :=
  sendFrom oracle attempts attempts

/-! ## GenerateWithLLM routing (client.go) -/

/-- Observable behaviour of one GenerateWithLLM call: whether it
succeeded, how many rate-limiter permits were acquired, how many HTTP
requests were issued, and whether the call went through sendRequest. -/
structure GenResult where
  ok : Bool
  acquires : Nat
  httpCalls : Nat
  viaSendRequest : Bool
deriving Repr, DecidableEq

/-- Embedding of GenerateWithLLM: the deepseek and llama models take the
custom path — one direct HTTP request with no permit acquisition and no
retry, decoding via parseSSEorJSONCompletion; every other model goes
through sendRequest, where each attempt first acquires one permit. -/
def GenerateWithLLM (model : String) (attempts : Nat) (oracle : Nat → Outcome) :
    GenResult :=
  if model == "deepseek_r1" || model == "llama_3_1_70b" then
    match oracle 0 with
    | .transportErr => ⟨false, 0, 1, false⟩
    | .readErr => ⟨false, 0, 1, false⟩
    | .httpResp status body _ =>
        if status ≥ 400 then ⟨false, 0, 1, false⟩
        else if parseSSEorJSONCompletion body == "" then ⟨false, 0, 1, false⟩
        else ⟨true, 0, 1, false⟩
  else
    let r := sendRequest oracle attempts
    ⟨r.term == .okTerm, r.attemptsUsed, r.attemptsUsed, true⟩

/-! ## Rate limiter (client.go)

The permit pool is a buffered channel.  The model is a transition
system whose atomic steps are a blocking acquire (which proceeds only
when a permit is available), a ticker refill (nonblocking sends up to
capacity), and a successful SetRateLimit (which installs a fresh pool
filled to the new capacity). -/

/-- Rate-limiter state: available permits and configured capacity. -/
structure RLState where
  permits : Nat
  capacity : Nat
deriving Repr, DecidableEq

/-- initRateLimiter: pool created at capacity and filled. -/
def rlInit (rps : Nat) : RLState := ⟨rps, rps⟩

/-- One ticker refill: nonblocking sends top the pool up to capacity. -/
def rlRefill (s : RLState) : RLState :=
  if s.permits < s.capacity then ⟨s.capacity, s.capacity⟩ else s

/-- Atomic steps of the rate limiter. -/
inductive RLStep : RLState → RLState → Prop where
  | acquire (s : RLState) (h : 0 < s.permits) :
      RLStep s ⟨s.permits - 1, s.capacity⟩
  | refill (s : RLState) : RLStep s (rlRefill s)
  | setRate (s : RLState) (rps : Nat) (h : 0 < rps) : RLStep s ⟨rps, rps⟩

/-! ## Client configuration setters (client.go) -/

/-- The mutable client fields touched by the configuration setters. -/
structure ThetaClient where
  baseURL : String
  apiKey : String
  timeoutNs : Int
  retryAttempts : Int
  retryBackoff : Int
  rateLimitRPS : Int
  permits : Nat
deriving Repr, DecidableEq

/-- Embedding of SetRetry: each field only updated on a positive value. -/
def SetRetry (c : ThetaClient) (attempts backoff : Int) : ThetaClient :=
  let c1 := if attempts > 0 then { c with retryAttempts := attempts } else c
  if backoff > 0 then { c1 with retryBackoff := backoff } else c1

/-- Embedding of SetRateLimit: nonpositive rates are ignored; a positive
rate replaces the pool with a fresh one filled to the new capacity. -/
def SetRateLimit (c : ThetaClient) (rps : Int) : ThetaClient :=
  if rps ≤ 0 then c
  else { c with rateLimitRPS := rps, permits := rps.toNat }

/-! ## Advisor fallback cascade (orchestrator.go) -/

/-- Embedding of synthFallbackAdvice: the static tier-3 constant. -/
def synthFallbackAdvice : String := "Provide a stabilizing course"

/-- Embedding of advisorOpinionViaGemini: the secondary tier.  The
oracle is the GenerateText result (none models a missing API key or a
provider error); an empty or meta-looking extraction is an error. -/
def advisorOpinionViaGemini (geminiOut : Option String) : Except String String :=
  match geminiOut with
  | none => .error "gemini unavailable"
  | some out =>
      let op := extractAdvisorOpinion (trimSpace out)
      if op == "" || looksMetaLike op then .error "gemini invalid advisor opinion"
      else .ok op

/-- Embedding of getAdvisorAdviceStream: primary llama completion, then
the gemini fallback, then the static fallback; the final error branch
fires only if the static fallback were empty. -/
def getAdvisorAdviceStream (llamaOut geminiOut : Option String) :
    Except String String :=
  match llamaOut with
  | none =>
      match advisorOpinionViaGemini geminiOut with
      | .ok adv => if adv == "" then .ok synthFallbackAdvice else .ok adv
      | .error _ => .ok synthFallbackAdvice
  | some out =>
      let raw := trimSpace out
      let final0 := extractAdvisorOpinion raw
      let final1 := if looksMetaLike final0 then "" else final0
      let final2 :=
        if final1 == "" then
          match advisorOpinionViaGemini geminiOut with
          | .ok adv => if adv == "" then final1 else adv
          | .error _ => final1
        else final1
      let final3 := if final2 == "" then synthFallbackAdvice else final2
      if final3 == "" then .error "unable to derive advisor opinion"
      else .ok final3

/-! ## Impact conversion (spec-modelled) -/

/-- Modelled from the spec: convertImpactsToDeltas is part of this
repository but its source file is not under src (only the spec
describes it).  Spec section 4.5: a level and direction pair converts
to a numeric delta — low draws a uniform random integer in 5..10,
medium in 15..30, high in 30..50 (the draw is abstracted as the roll
argument), extreme pushes the metric all the way to its plus-or-minus
100 boundary from its current value; direction minus negates the
magnitude and direction zero yields zero regardless of level. -/
def convertImpactsToDeltas (level direction : String) (current : Int)
    (roll : Nat → Nat → Int) : Int :=
  if direction == "0" then 0
  else
    let magnitude : Int :=
      if level == "low" then roll 5 10
      else if level == "medium" then roll 15 30
      else if level == "high" then roll 30 50
      else if level == "extreme" then
        (if direction == "-" then 100 + current else 100 - current)
      else 0
    if direction == "-" then -magnitude else magnitude

/-! ## Spec-side balanced-brace scan (for comparison with the source) -/

/-- Spec-described balanced scan from an opening brace (already
consumed into `accRev`): track brace depth, string context and escape
state, and return the candidate up to the matching close brace.  This
definition follows the spec wording (balanced braces, escaped quotes
inside string literals handled), for comparison against the regex scan
actually used by the source. -/
def balAux : Nat → Chars → Nat → Bool → Bool → Chars → Option (Chars × Chars)
  | 0, _, _, _, _, _ => none
  | _ + 1, [], _, _, _, _ => none
  | f + 1, c :: rest, depth, inStr, esc, accRev =>
      let acc1 := c :: accRev
      if esc then balAux f rest depth inStr false acc1
      else if inStr then
        if c == bslash then balAux f rest depth true true acc1
        else if c == dquote then balAux f rest depth false false acc1
        else balAux f rest depth true false acc1
      else if c == dquote then balAux f rest depth true false acc1
      else if c == lbrace then balAux f rest (depth + 1) false false acc1
      else if c == rbrace then
        if depth == 1 then some (acc1.reverse, rest)
        else balAux f rest (depth - 1) false false acc1
      else balAux f rest depth false false acc1

/-- Spec-described candidate scan: all balanced-brace object candidates
in the text, an unmatched open brace being skipped. -/
def balScan : Nat → Chars → List Chars
  | 0, _ => []
  | f + 1, cs =>
      match dropUntilChar lbrace cs with
      | [] => []
      | l :: rest =>
          match balAux (rest.length + 1) rest 1 false false [l] with
          | some (cand, after) => cand :: balScan f after
          | none => balScan f rest

/-- Spec-described extraction target: the advisor_opinion value of the
last balanced-brace JSON object candidate in the text. -/
def specLastBalancedValue (s : String) : Option String :=
  ((balScan (s.data.length + 1) s.data).map (fun l => (⟨l⟩ : String))).reverse.findSome?
    candValue

/-! ## Concrete inputs used by the claims -/

/-- The SSE body of the decoder test in the spec. -/
def sseSampleBody : String :=
  "data: \x7b\"choices\":[\x7b\"delta\":\x7b\"content\":\"A\"\x7d\x7d]\x7d\n\ndata: \x7b\"choices\":[\x7b\"delta\":\x7b\"content\":\"B\"\x7d\x7d]\x7d\n\ndata: [DONE]\n"

/-- The extractOpinion example input of the spec. -/
def opinionExampleInput : String :=
  "blah blah \x7b\"advisor_opinion\":\"Raise tariffs now.\"\x7d trailing junk"

/-- Input whose last well-formed balanced JSON object carries the key
but contains a nested object before it, so the non-greedy regex cuts
the candidate short at the first close brace. -/
def nestedCexInput : String :=
  "start \x7b\"advisor_opinion\":\"first\"\x7d mid \x7b\"x\":\x7b\"y\":1\x7d,\"advisor_opinion\":\"second\"\x7d end"

/-! ## Helper lemmas -/

/-- Metric increments of the sendRequest loop, characterized by the
termination kind, for any point in the loop. -/
theorem sendFrom_metrics (oracle : Nat → Outcome) (attempts : Nat) :
    ∀ r : Nat,
      ((sendFrom oracle attempts r).term = TermKind.okTerm →
        (sendFrom oracle attempts r).reqInc = 1 ∧ (sendFrom oracle attempts r).failInc = 0) ∧
      ((sendFrom oracle attempts r).term = TermKind.transportTerm →
        (sendFrom oracle attempts r).reqInc = 0 ∧ (sendFrom oracle attempts r).failInc = 1) ∧
      ((sendFrom oracle attempts r).term = TermKind.exhaustedTerm →
        (sendFrom oracle attempts r).reqInc = 0 ∧ (sendFrom oracle attempts r).failInc = 0) := by
  intro r
  induction r with
  | zero => simp [sendFrom]
  | succ r ih =>
      simp only [sendFrom]
      cases oracle (attempts - (r + 1)) with
      | transportErr =>
          by_cases hr : (r == 0) = true
          · simp [hr]
          · simp only [hr, Bool.false_eq_true, if_false]
            exact ih
      | readErr => exact ih
      | httpResp status body decodeOk =>
          by_cases hs : status ≥ 400
          · simp only [hs, if_true]
            exact ih
          · simp only [hs, if_false]
            by_cases hd : decodeOk = true
            · simp [hd]
            · simp only [hd, if_false]
              exact ih

/-- A successful secondary-tier result is never the empty string. -/
theorem advisorOpinionViaGemini_ok_ne_empty (g : Option String) (a : String)
    (h : advisorOpinionViaGemini g = Except.ok a) : a ≠ "" := by
  cases g with
  | none => simp [advisorOpinionViaGemini] at h
  | some out =>
      simp only [advisorOpinionViaGemini] at h
      by_cases hc :
          (extractAdvisorOpinion (trimSpace out) == "" ||
            looksMetaLike (extractAdvisorOpinion (trimSpace out))) = true
      · rw [if_pos hc] at h
        exact absurd h (by simp)
      · rw [if_neg hc] at h
        have ha : a = extractAdvisorOpinion (trimSpace out) := by
          cases h
          rfl
        simp only [Bool.or_eq_true, not_or, beq_iff_eq] at hc
        rw [ha]
        exact hc.1

/-- The last stage of the cascade always resolves to a nonempty value. -/
theorem resolve_last_stage (final2 : String) :
    ∃ s : String,
      (if (if final2 == "" then synthFallbackAdvice else final2) == "" then
          (Except.error "unable to derive advisor opinion" : Except String String)
        else Except.ok (if final2 == "" then synthFallbackAdvice else final2)) =
        Except.ok s ∧ s ≠ "" := by
  by_cases h2 : final2 = ""
  · subst h2
    exact ⟨synthFallbackAdvice, by rfl, by decide⟩
  · refine ⟨final2, ?_, h2⟩
    have hb : (final2 == "") = false := by simp [h2]
    simp [hb]

/-- One rate-limiter step preserves the permit bound. -/
theorem rlStep_preserves (s t : RLState) (hst : RLStep s t)
    (hin : s.permits ≤ s.capacity) : t.permits ≤ t.capacity := by
  cases hst with
  | acquire h => simpa using Nat.le_trans (Nat.sub_le _ _) hin
  | refill =>
      unfold rlRefill
      split_ifs with hc
      · exact Nat.le_refl _
      · exact hin
  | setRate rps h => exact Nat.le_refl _

/-! ## Claim theorems -/

/-- Claim C1 (code bug evidence): the claim says a plain 4xx response
and a decode failure on a 2xx response each cause exactly one attempt
followed by an immediate terminal error.  The loop in sendRequest,
however, falls through to the next attempt in both cases — the comment
about retrying only on 5xx or 429 governs only the backoff sleep — so
with the default three attempts, a constant 400 response and a constant
decode failure both consume all three attempts before the exhausted
error is returned. -/
theorem sendRequest_retries_plain_4xx_and_decode_failures :
    sendRequest (fun _ => Outcome.httpResp 400 "" true) 3 =
      ⟨TermKind.exhaustedTerm, 3, 0, 0⟩ ∧
    sendRequest (fun _ => Outcome.httpResp 200 "" false) 3 =
      ⟨TermKind.exhaustedTerm, 3, 0, 0⟩ := by
  decide

/-- Claim C2 (counterexample): a GenerateWithLLM call with model
deepseek_r1 issues one HTTP request, acquires no rate-limiter permit,
and does not go through the retrying transport, refuting the claim that
every completion call acquires a permit and passes through the
transport. -/
theorem generateWithLLM_deepseek_bypasses_limiter_cex :
    ¬ ((GenerateWithLLM "deepseek_r1" 3 (fun _ => Outcome.httpResp 200 "hello" true)).httpCalls ≤
        (GenerateWithLLM "deepseek_r1" 3 (fun _ => Outcome.httpResp 200 "hello" true)).acquires ∧
       (GenerateWithLLM "deepseek_r1" 3 (fun _ => Outcome.httpResp 200 "hello" true)).viaSendRequest = true) := by
  decide

/-- Claim C2 (amended): calls whose model is neither deepseek_r1 nor
llama_3_1_70b go through sendRequest and acquire exactly one permit per
HTTP attempt; the deepseek_r1 and llama_3_1_70b paths instead issue a
single direct HTTP request with no permit acquisition and no retry. -/
theorem generateWithLLM_routing_amended (model : String) (attempts : Nat)
    (oracle : Nat → Outcome) :
    ((model = "deepseek_r1" ∨ model = "llama_3_1_70b") →
      (GenerateWithLLM model attempts oracle).viaSendRequest = false ∧
      (GenerateWithLLM model attempts oracle).acquires = 0 ∧
      (GenerateWithLLM model attempts oracle).httpCalls = 1) ∧
    (model ≠ "deepseek_r1" → model ≠ "llama_3_1_70b" →
      (GenerateWithLLM model attempts oracle).viaSendRequest = true ∧
      (GenerateWithLLM model attempts oracle).acquires =
        (GenerateWithLLM model attempts oracle).httpCalls ∧
      (GenerateWithLLM model attempts oracle).httpCalls =
        (sendRequest oracle attempts).attemptsUsed) := by
  constructor
  · intro h
    have hb : (model == "deepseek_r1" || model == "llama_3_1_70b") = true := by
      rcases h with h | h <;> simp [h]
    simp only [GenerateWithLLM, hb, if_true]
    cases oracle 0 with
    | transportErr => exact ⟨rfl, rfl, rfl⟩
    | readErr => exact ⟨rfl, rfl, rfl⟩
    | httpResp status body decodeOk =>
        by_cases hs : status ≥ 400
        · simp [hs]
        · by_cases hp : (parseSSEorJSONCompletion body == "") = true
          · simp [hs, hp]
          · simp [hs, hp]
  · intro h1 h2
    have hb : (model == "deepseek_r1" || model == "llama_3_1_70b") = false := by
      simp [h1, h2]
    simp [GenerateWithLLM, hb]

/-- Claim C2 witness: the amended theorem applied to a generic model. -/
theorem generateWithLLM_routing_amended_witness :
    (GenerateWithLLM "flux" 2 (fun _ => Outcome.httpResp 200 "" true)).viaSendRequest = true ∧
    (GenerateWithLLM "flux" 2 (fun _ => Outcome.httpResp 200 "" true)).acquires =
      (GenerateWithLLM "flux" 2 (fun _ => Outcome.httpResp 200 "" true)).httpCalls ∧
    (GenerateWithLLM "flux" 2 (fun _ => Outcome.httpResp 200 "" true)).httpCalls =
      (sendRequest (fun _ => Outcome.httpResp 200 "" true) 2).attemptsUsed :=
  (generateWithLLM_routing_amended "flux" 2 (fun _ => Outcome.httpResp 200 "" true)).2
    (by decide) (by decide)

/-- Claim C3 (counterexample): a logical call whose every attempt
returns HTTP 400 terminates with neither the request-success nor the
request-failure counter incremented, refuting the claim that exactly
one of them is incremented by exactly one on every logical call. -/
theorem sendRequest_metrics_not_incremented_cex :
    ¬ (((sendRequest (fun _ => Outcome.httpResp 400 "x" true) 3).reqInc = 1 ∧
        (sendRequest (fun _ => Outcome.httpResp 400 "x" true) 3).failInc = 0) ∨
       ((sendRequest (fun _ => Outcome.httpResp 400 "x" true) 3).reqInc = 0 ∧
        (sendRequest (fun _ => Outcome.httpResp 400 "x" true) 3).failInc = 1)) := by
  decide

/-- Claim C3 (amended): the success counter is incremented exactly once
when the call ends in a successful decode, the failure counter exactly
once when the call ends in transport-error exhaustion on the final
attempt, and neither counter is touched when the call exhausts its
attempts on HTTP-status errors, body-read errors, or decode failures. -/
theorem sendRequest_metrics_amended (oracle : Nat → Outcome) (attempts : Nat) :
    ((sendRequest oracle attempts).term = TermKind.okTerm →
      (sendRequest oracle attempts).reqInc = 1 ∧
      (sendRequest oracle attempts).failInc = 0) ∧
    ((sendRequest oracle attempts).term = TermKind.transportTerm →
      (sendRequest oracle attempts).reqInc = 0 ∧
      (sendRequest oracle attempts).failInc = 1) ∧
    ((sendRequest oracle attempts).term = TermKind.exhaustedTerm →
      (sendRequest oracle attempts).reqInc = 0 ∧
      (sendRequest oracle attempts).failInc = 0) :=
  sendFrom_metrics oracle attempts attempts

/-- Claim C3 witness: the amended theorem at a call that succeeds on
its first attempt. -/
theorem sendRequest_metrics_amended_witness :
    (sendRequest (fun _ => Outcome.httpResp 200 "ok" true) 1).reqInc = 1 ∧
    (sendRequest (fun _ => Outcome.httpResp 200 "ok" true) 1).failInc = 0 :=
  (sendRequest_metrics_amended (fun _ => Outcome.httpResp 200 "ok" true) 1).1 (by decide)

/-- Claim C4 (counterexample): on an input whose last well-formed
balanced-brace JSON object carries advisor_opinion value second but
contains a nested object, the balanced scan described by the spec finds
that value, while extractAdvisorOpinion — whose candidate regex is
non-greedy and not brace-balanced — returns the value first from an
earlier candidate. -/
theorem extractAdvisorOpinion_nested_brace_cex :
    specLastBalancedValue nestedCexInput = some "second" ∧
    extractAdvisorOpinion nestedCexInput = "first" := by
  decide

/-- Claim C4 (amended): extractAdvisorOpinion returns the sanitized
advisor_opinion of the last regex candidate that parses as JSON with
that key, where candidates run from an open brace to the nearest
following close brace (nested braces are not balanced); on the concrete
spec example it returns the expected opinion. -/
theorem extractAdvisorOpinion_amended :
    extractAdvisorOpinion opinionExampleInput = "Raise tariffs now." ∧
    (∀ raw v : String,
      containsSub (trimSpace raw) "advisor_opinion" = true →
      findLastCandidateValue (trimSpace raw) = some v →
      extractAdvisorOpinion raw = sanitizeOpinion v) := by
  constructor
  · decide
  · intro raw v h1 h2
    have hne : (trimSpace raw == "") = false := by
      by_cases he : trimSpace raw = ""
      · rw [he] at h1
        exact absurd h1 (by decide)
      · simp [he]
    simp [extractAdvisorOpinion, hne, h1, h2]

/-- Claim C4 witness: the general part of the amended theorem at a
concrete input. -/
theorem extractAdvisorOpinion_amended_witness :
    extractAdvisorOpinion "x \x7b\"advisor_opinion\":\"Ok then.\"\x7d" =
      sanitizeOpinion "Ok then." :=
  extractAdvisorOpinion_amended.2 "x \x7b\"advisor_opinion\":\"Ok then.\"\x7d"
    "Ok then." (by decide) (by decide)

/-- Claim C5: convertImpactsToDeltas at level extreme with direction
minus on a metric at 40 returns exactly minus 140; in general extreme
pushes the metric to the relevant boundary of the range from minus 100
to 100 from its current value, and direction zero yields zero for every
level and every random draw. -/
theorem convertImpactsToDeltas_extreme_boundary (roll : Nat → Nat → Int)
    (current : Int) (level : String) :
    convertImpactsToDeltas "extreme" "-" 40 roll = -140 ∧
    current + convertImpactsToDeltas "extreme" "+" current roll = 100 ∧
    current + convertImpactsToDeltas "extreme" "-" current roll = -100 ∧
    convertImpactsToDeltas level "0" current roll = 0 := by
  refine ⟨?_, ?_, ?_, ?_⟩
  · simp [convertImpactsToDeltas]
  · simp [convertImpactsToDeltas]
  · simp [convertImpactsToDeltas]
  · simp [convertImpactsToDeltas]

/-- Claim C6: the decoder on the SSE body with two delta-content chunks
and a DONE sentinel returns the concatenation AB, chunks decoded in
input order and the sentinel contributing nothing. -/
theorem parseSSE_concatenates_chunks :
    parseSSEorJSONCompletion sseSampleBody = "AB" := by
  decide

/-- Claim C7: a body that neither contains the newline-data SSE marker
nor decodes as a JSON object with nonempty choices text is returned as
the trimmed raw text (and the decoder is a total function, so it never
raises). -/
theorem parseSSE_unrecognized_returns_trimmed (s : String)
    (h1 : containsSub s "\ndata:" = false)
    (h2 : jsonChoicesText s = none) :
    parseSSEorJSONCompletion s = trimSpace s := by
  simp [parseSSEorJSONCompletion, h1, h2]

/-- Claim C7 witness: the theorem at the concrete body plain text,
which is returned unchanged. -/
theorem parseSSE_unrecognized_returns_trimmed_witness :
    parseSSEorJSONCompletion "plain text" = "plain text" := by
  have h := parseSSE_unrecognized_returns_trimmed "plain text" (by decide) (by decide)
  simpa using h

/-- Claim C8: in every state reachable from initialization by acquires,
ticker refills, and positive SetRateLimit capacity changes, the number
of available permits never exceeds the configured capacity, and a
refill from such a state tops the pool up to at most that capacity. -/
theorem rateLimiter_permits_le_capacity (rps : Nat) (s : RLState)
    (h : Relation.ReflTransGen RLStep (rlInit rps) s) :
    s.permits ≤ s.capacity ∧ (rlRefill s).permits ≤ s.capacity := by
  have inv : s.permits ≤ s.capacity := by
    induction h with
    | refl => exact Nat.le_refl _
    | tail hsteps hstep ih => exact rlStep_preserves _ _ hstep ih
  refine ⟨inv, ?_⟩
  unfold rlRefill
  split_ifs with hc
  · exact Nat.le_refl _
  · exact inv

/-- Claim C8 witness: the theorem at the freshly initialized limiter
with the default capacity of eight. -/
theorem rateLimiter_permits_le_capacity_witness :
    (rlInit 8).permits ≤ (rlInit 8).capacity ∧
    (rlRefill (rlInit 8)).permits ≤ (rlInit 8).capacity :=
  rateLimiter_permits_le_capacity 8 (rlInit 8) Relation.ReflTransGen.refl

/-- Claim C9: for every primary and secondary provider outcome, the
advisor cascade resolves to a nonempty advice string and never returns
an error — the terminal error branch is unreachable because the static
fallback is a nonempty constant. -/
theorem getAdvisorAdviceStream_total_nonempty (llamaOut geminiOut : Option String) :
    ∃ s : String,
      getAdvisorAdviceStream llamaOut geminiOut = Except.ok s ∧ s ≠ "" := by
  cases llamaOut with
  | none =>
      cases hg : advisorOpinionViaGemini geminiOut with
      | error e =>
          exact ⟨synthFallbackAdvice, by simp [getAdvisorAdviceStream, hg], by decide⟩
      | ok adv =>
          have hne := advisorOpinionViaGemini_ok_ne_empty geminiOut adv hg
          have hb : (adv == "") = false := by simp [hne]
          exact ⟨adv, by simp [getAdvisorAdviceStream, hg, hb], hne⟩
  | some out =>
      obtain ⟨s, hs, hne⟩ := resolve_last_stage
        (if (if looksMetaLike (extractAdvisorOpinion (trimSpace out)) then ""
              else extractAdvisorOpinion (trimSpace out)) == "" then
          match advisorOpinionViaGemini geminiOut with
          | .ok adv =>
              if adv == "" then
                (if looksMetaLike (extractAdvisorOpinion (trimSpace out)) then ""
                  else extractAdvisorOpinion (trimSpace out))
              else adv
          | .error _ =>
              (if looksMetaLike (extractAdvisorOpinion (trimSpace out)) then ""
                else extractAdvisorOpinion (trimSpace out))
          else
            (if looksMetaLike (extractAdvisorOpinion (trimSpace out)) then ""
              else extractAdvisorOpinion (trimSpace out)))
      exact ⟨s, by simpa [getAdvisorAdviceStream] using hs, hne⟩

/-- Claim C10: SetRateLimit with a nonpositive rate is a no-op,
SetRetry leaves retryAttempts unchanged for nonpositive attempts and
retryBackoff unchanged for nonpositive backoff, and neither setter
modifies any other client field. -/
theorem setters_guard_and_frame (c : ThetaClient) (rps attempts backoff : Int) :
    (rps ≤ 0 → SetRateLimit c rps = c) ∧
    (attempts ≤ 0 → (SetRetry c attempts backoff).retryAttempts = c.retryAttempts) ∧
    (backoff ≤ 0 → (SetRetry c attempts backoff).retryBackoff = c.retryBackoff) ∧
    ((SetRetry c attempts backoff).baseURL = c.baseURL ∧
      (SetRetry c attempts backoff).apiKey = c.apiKey ∧
      (SetRetry c attempts backoff).timeoutNs = c.timeoutNs ∧
      (SetRetry c attempts backoff).rateLimitRPS = c.rateLimitRPS ∧
      (SetRetry c attempts backoff).permits = c.permits) ∧
    ((SetRateLimit c rps).baseURL = c.baseURL ∧
      (SetRateLimit c rps).apiKey = c.apiKey ∧
      (SetRateLimit c rps).timeoutNs = c.timeoutNs ∧
      (SetRateLimit c rps).retryAttempts = c.retryAttempts ∧
      (SetRateLimit c rps).retryBackoff = c.retryBackoff) := by
  refine ⟨?_, ?_, ?_, ?_, ?_⟩
  · intro h
    simp [SetRateLimit, h]
  · intro h
    have hn : ¬ attempts > 0 := by omega
    simp only [SetRetry, hn, if_false]
    split_ifs <;> rfl
  · intro h
    have hn : ¬ backoff > 0 := by omega
    simp only [SetRetry, hn, if_false]
    split_ifs <;> rfl
  · simp only [SetRetry]
    split_ifs <;> exact ⟨rfl, rfl, rfl, rfl, rfl⟩
  · simp only [SetRateLimit]
    split_ifs <;> exact ⟨rfl, rfl, rfl, rfl, rfl⟩

/-- Claim C10 witness: the theorem at a concrete client with
nonpositive setter arguments. -/
theorem setters_guard_and_frame_witness :
    SetRateLimit ⟨"u", "k", 30, 3, 200, 8, 8⟩ (-1) = ⟨"u", "k", 30, 3, 200, 8, 8⟩ ∧
    (SetRetry ⟨"u", "k", 30, 3, 200, 8, 8⟩ 0 0).retryAttempts = 3 ∧
    (SetRetry ⟨"u", "k", 30, 3, 200, 8, 8⟩ 0 0).retryBackoff = 200 :=
  ⟨(setters_guard_and_frame ⟨"u", "k", 30, 3, 200, 8, 8⟩ (-1) 0 0).1 (by decide),
   (setters_guard_and_frame ⟨"u", "k", 30, 3, 200, 8, 8⟩ (-1) 0 0).2.1 (by decide),
   (setters_guard_and_frame ⟨"u", "k", 30, 3, 200, 8, 8⟩ (-1) 0 0).2.2.1 (by decide)⟩

end AgentStage
